import Mathlib

/-!
# Verification of the greta grouped star formation program

Shallow embedding of `src/star_formation_class.py` and `src/greta.py`
(the "greta" grouped star-formation program) in Lean 4, over exact
rational arithmetic.

Modelling conventions, recorded once here:

* AMUSE quantities (masses, lengths, speeds, times) are modelled as `ℚ`;
  3-vectors as `ℚ × ℚ × ℚ`.  All claims under study are either exact
  bookkeeping identities, control-flow facts, or determinism statements,
  so exact arithmetic is the appropriate carrier.
* The numpy global random generator is reseeded by
  `form_stars_from_group` at every invocation
  (`numpy.random.seed(randomseed)`, star_formation_class.py:124-125),
  so every draw made inside one invocation is a pure function of the
  seed and of the draw's own arguments.  The structure `RNG` packages
  those draw functions: `nextDraw` models
  `new_kroupa_mass_distribution(1, mass_min, mass_max)[0][0]`,
  `newMasses` models `amuse.ext.masc.cluster.new_masses` (an external
  collaborator: its output is an arbitrary list of sampled masses),
  `choice` models `numpy.random.choice(len, n, p)`, and
  `posJit`/`velJit` fold the uniform radius/angle draws, the
  trigonometric conversion to Cartesian displacements and the Gaussian
  speed draw (star_formation_class.py:220-265) into abstract
  displacement draws — sound here because no claim under study inspects
  the numeric value of a star's position or velocity, only whether the
  pipeline is deterministic and which sink state is mutated.
* `numpy.random.choice(len(group), n, p)` always returns indices
  `< len(group)`; the model totalises by reducing each sampled index
  modulo the group size, which is the identity on every value the real
  generator can produce.
* The AMUSE attribute machinery (`AttributeError` on a never-assigned
  `group_next_primary_mass`) is modelled by making the attribute always
  present with initial value `0`: the `except AttributeError` branch of
  star_formation_class.py:144-155 performs exactly the same assignment
  as the `max() == 0` branch, so the two collapse.
* `sorted_by_attribute("mass").reversed()` is modelled as a descending
  insertion sort on the relevant rational key.  At the only place the
  sort is applied (star_formation_class.py:183) the particles carry no
  attribute other than their mass that could distinguish two
  equal-mass records, so any descending sort is observationally equal.
* The kinetic-plus-potential energy of a hypothetical group
  (star_formation_class.py:84-89) involves square roots of rationals,
  so it is kept as an explicit function parameter
  `E : List Sink → Sink → ℚ` of the group-assignment model; every
  theorem about group assignment is proved for an arbitrary such `E`,
  and concrete instantiations are only used to exhibit configurations
  (e.g. mirror-symmetric ones, where the real computation returns
  exactly equal energies).
* Distance and speed gates compare Euclidean norms against nonnegative
  thresholds; the model compares squared norms against squared
  thresholds (`r2`, `v2`), which is equivalent for nonnegative
  thresholds and keeps everything rational.
* Console printing and file I/O are outside the model, except for the
  progress-printing expression `i % int(N/5)` of greta.py:156-158 and
  183-185, whose zero-divisor failure is claim C10's subject; Python's
  `%` raising `ZeroDivisionError` on a zero right operand is modelled
  by `pyMod` returning `none`.
-/

namespace Greta

/-- 3-vectors of rationals (positions, velocities). -/
abbrev Vec3 := ℚ × ℚ × ℚ

/-- A sink particle, as read and mutated by the program
(spec §3 SinkParticle; attributes used in the two source files). -/
structure Sink where
  key : ℕ
  position : Vec3
  velocity : Vec3
  mass : ℚ
  radius : ℚ
  birth_time : ℚ
  in_group : ℕ
  initialised : Bool
  group_next_primary_mass : ℚ
deriving DecidableEq, Repr

instance : Inhabited Sink :=
  ⟨⟨0, (0, 0, 0), (0, 0, 0), 0, 0, 0, 0, false, 0⟩⟩

/-- A star particle as produced by `form_stars_from_group`
(spec §3 StarParticle). -/
structure Star where
  mass : ℚ
  age : ℚ
  in_group : ℕ
  origin_cloud : ℕ
  position : Vec3
  velocity : Vec3
  radius : ℚ
deriving DecidableEq, Repr

/-- The random draws consumed by one invocation of
`form_stars_from_group`, as pure functions of the seed (see the header
comment: the function reseeds the global generator on entry, so this
is faithful). -/
structure RNG where
  /-- `new_kroupa_mass_distribution(1, lower, upper)[0][0]` -/
  nextDraw : ℕ → ℚ → ℚ → ℚ
  /-- `new_masses(stellar_mass=budget, lower, upper, "kroupa", exceed_mass=False)`:
  seed, lower, upper, budget. -/
  newMasses : ℕ → ℚ → ℚ → ℚ → List ℚ
  /-- `numpy.random.choice(len, n, p=probs)`: seed, len, n, probs. -/
  choice : ℕ → ℕ → ℕ → List ℚ → List ℕ
  /-- positional jitter draws folded to displacement vectors: seed, n. -/
  posJit : ℕ → ℕ → List Vec3
  /-- velocity jitter draws folded to velocity vectors: seed, n. -/
  velJit : ℕ → ℕ → List Vec3

/-- Descending insertion into a descending-sorted list. -/
def insertDesc (x : ℚ) : List ℚ → List ℚ
  | [] => [x]
  | y :: ys => if y < x then x :: y :: ys else y :: insertDesc x ys

/-- Descending sort of a list of rationals; models
`sorted_by_attribute("mass").reversed()` on the star mass list. -/
def sortDesc : List ℚ → List ℚ
  | [] => []
  | x :: xs => insertDesc x (sortDesc xs)

theorem insertDesc_perm (x : ℚ) (l : List ℚ) :
    List.Perm (insertDesc x l) (x :: l) := by
  induction l with
  | nil => simp [insertDesc]
  | cons y ys ih =>
    by_cases h : y < x
    · simp [insertDesc, h]
    · rw [insertDesc, if_neg h]
      exact ((ih.cons y).trans (List.Perm.swap x y ys))

theorem sortDesc_perm (l : List ℚ) : List.Perm (sortDesc l) l := by
  induction l with
  | nil => simp [sortDesc]
  | cons x xs ih => exact (insertDesc_perm x (sortDesc xs)).trans (ih.cons x)

theorem sortDesc_sum (l : List ℚ) : (sortDesc l).sum = l.sum :=
  (sortDesc_perm l).sum_eq

theorem insertDesc_sorted (x : ℚ) (l : List ℚ) (h : l.Sorted (· ≥ ·)) :
    (insertDesc x l).Sorted (· ≥ ·) := by
  induction l with
  | nil => simp [insertDesc]
  | cons y ys ih =>
    rcases List.sorted_cons.mp h with ⟨hy, hys⟩
    by_cases hxy : y < x
    · rw [insertDesc, if_pos hxy]
      refine List.sorted_cons.mpr ⟨?_, h⟩
      intro b hb
      rcases List.mem_cons.mp hb with rfl | hb
      · exact le_of_lt hxy
      · exact le_trans (hy _ hb) (le_of_lt hxy)
    · rw [insertDesc, if_neg hxy]
      refine List.sorted_cons.mpr ⟨?_, ih hys⟩
      intro b hb
      rcases List.mem_cons.mp ((insertDesc_perm x ys).mem_iff.mp hb) with rfl | hb
      · exact not_lt.mp hxy
      · exact hy _ hb

theorem sortDesc_sorted (l : List ℚ) : (sortDesc l).Sorted (· ≥ ·) := by
  induction l with
  | nil => simp [sortDesc]
  | cons x xs ih => exact insertDesc_sorted x _ ih

/-! ## The star formation engine (`form_stars_from_group`,
star_formation_class.py:110-322, called with `shrink_sinks=False` as in
greta.py:188-195; the `shrink_sinks` radius recomputation involves a cube
root and is outside every claim, so the model fixes the orchestrator's
`shrink_sinks=False`). -/

/-- `group.total_mass()`. -/
def groupMass (g : List Sink) : ℚ := (g.map Sink.mass).sum

/-- `group.group_next_primary_mass.max()` (star_formation_class.py:149).
All reachable cache values are nonnegative masses, so folding `max`
with base `0` computes the same maximum. -/
def maxCache (g : List Sink) : ℚ :=
  (g.map Sink.group_next_primary_mass).foldr max 0

/-- The `next_mass` in force for this invocation
(star_formation_class.py:140-155): the cached pending primary mass if
some member carries a nonzero one, else the fresh Kroupa draw. -/
def nextMassOf (rng : RNG) (seed : ℕ) (lo hi : ℚ) (g : List Sink) : ℚ :=
  if maxCache g = 0 then rng.nextDraw seed lo hi else maxCache g

/-- Per-sink effect of lines 149-155: write the fresh draw into the
cache when every member's cache is zero, else leave the sink alone. -/
def cacheT (rng : RNG) (seed : ℕ) (lo hi : ℚ) (g : List Sink) (s : Sink) : Sink :=
  if maxCache g = 0 then { s with group_next_primary_mass := rng.nextDraw seed lo hi }
  else s

/-- Group state after lines 149-155. -/
def cachePhase (rng : RNG) (seed : ℕ) (lo hi : ℚ) (g : List Sink) : List Sink :=
  g.map (cacheT rng seed lo hi g)

/-- `new_masses(stellar_mass=group_mass - next_mass, ...)`
(star_formation_class.py:164-171). -/
def newMassesOf (rng : RNG) (seed : ℕ) (lo hi : ℚ) (g : List Sink) : List ℚ :=
  rng.newMasses seed lo hi (groupMass g - nextMassOf rng seed lo hi g)

/-- The star mass list (star_formation_class.py:178-183): star 0 takes
`next_mass`, stars 1.. take `masses[:-1]`, then the whole list is
sorted into descending order. -/
def starMassesOf (rng : RNG) (seed : ℕ) (lo hi : ℚ) (g : List Sink) : List ℚ :=
  sortDesc (nextMassOf rng seed lo hi g :: (newMassesOf rng seed lo hi g).dropLast)

/-- `probabilities = mass/mass.sum()` (star_formation_class.py:199-202).
The second renormalisation `probabilities /= probabilities.sum()` is a
floating-point-drift guard and is the identity in exact arithmetic. -/
def probs (ms : List ℚ) : List ℚ := ms.map (· / ms.sum)

/-- The `numpy.random.choice` draw of origin indices
(star_formation_class.py:204-207). -/
def sampleOf (rng : RNG) (seed : ℕ) (lo hi : ℚ) (g : List Sink) : List ℕ :=
  rng.choice seed g.length (newMassesOf rng seed lo hi g).length (probs (g.map Sink.mass))

/-- The new star particles of one formation round
(star_formation_class.py:178-272): descending-sorted masses, origin
sink drawn by `choice`, position/velocity inherited from the origin
plus the jitter draws, fixed radius `0.05 pc`, zero age. -/
def newStarsOf (rng : RNG) (seed : ℕ) (lo hi : ℚ) (i : ℕ) (g : List Sink) : List Star :=
  let sm := starMassesOf rng seed lo hi g
  let sample := sampleOf rng seed lo hi g
  let dX := rng.posJit seed sm.length
  let dV := rng.velJit seed sm.length
  (List.range sm.length).map fun t =>
    let os := g.getD ((sample.getD t 0) % g.length) default
    { mass := sm.getD t 0
      age := 0
      in_group := i
      origin_cloud := os.key
      position := os.position + dX.getD t 0
      velocity := os.velocity + dV.getD t 0
      radius := 1/20 }

/-- `new_stars[new_stars.origin_cloud == s.key].total_mass()`
(star_formation_class.py:278-280); the empty selection sums to zero. -/
def starMassAt (stars : List Star) (k : ℕ) : ℚ :=
  ((stars.filter fun st => st.origin_cloud == k).map Star.mass).sum

/-- One step of the bookkeeping loop (star_formation_class.py:275-303):
the updated sink and its contribution to `excess_star_mass`. -/
def reduceSink (mm : ℚ) (stars : List Star) (s : Sink) : Sink × ℚ :=
  let t := starMassAt stars s.key
  if mm < s.mass then
    if s.mass - t ≤ mm then ({ s with mass := mm }, t - s.mass + mm)
    else ({ s with mass := s.mass - t }, 0)
  else (s, t)

/-- `excess_star_mass` after the loop. -/
def excessOf (mm : ℚ) (stars : List Star) (g : List Sink) : ℚ :=
  (g.map fun s => (reduceSink mm stars s).2).sum

/-- The group after the loop, before the uniform reduction. -/
def reducedGroup (mm : ℚ) (stars : List Star) (g : List Sink) : List Sink :=
  g.map fun s => (reduceSink mm stars s).1

/-- `mass_ratio = 1 - excess_star_mass/group.total_mass()`
(star_formation_class.py:308); `group.total_mass()` is evaluated on the
already-reduced group. -/
def massRatioOf (mm : ℚ) (stars : List Star) (g : List Sink) : ℚ :=
  1 - excessOf mm stars g / groupMass (reducedGroup mm stars g)

/-- Per-sink effect of the star-forming branch on a group member:
cache set to `masses[-1]` (line 182), bookkeeping reduction
(lines 275-303), then the uniform `mass_ratio` rescale (line 309). -/
def starBranchT (rng : RNG) (seed : ℕ) (lo hi mm : ℚ) (i : ℕ) (g : List Sink)
    (s : Sink) : Sink :=
  let stars := newStarsOf rng seed lo hi i g
  let last := ((newMassesOf rng seed lo hi g).getLast?).getD 0
  let r := (reduceSink mm stars { s with group_next_primary_mass := last }).1
  { r with mass := r.mass * massRatioOf mm stars g }

/-- Outcome of one `form_stars_from_group` call: `fatal` is the
`exit()` on an empty group, `noStars` is the `return None` paths (with
the group state as left behind), `stars` is the normal return. -/
inductive FormOutcome where
  | fatal : FormOutcome
  | noStars : List Sink → FormOutcome
  | stars : List Star → List Sink → FormOutcome
deriving DecidableEq, Repr

/-- `form_stars_from_group(group_index=i, ...)` restricted to the
already-selected group `g` (the caller passes
`sink_particles[sink_particles.in_group == i]`). -/
def formStars (rng : RNG) (seed : ℕ) (lo hi mm : ℚ) (i : ℕ) (g : List Sink) :
    FormOutcome :=
  if g.isEmpty then .fatal
  else if groupMass g < nextMassOf rng seed lo hi g then
    .noStars (cachePhase rng seed lo hi g)
  else if (newMassesOf rng seed lo hi g).isEmpty then
    .noStars (cachePhase rng seed lo hi g)
  else .stars (newStarsOf rng seed lo hi i g) (g.map (starBranchT rng seed lo hi mm i g))

/-! ## The group assignment engine (`assign_sink_group`,
star_formation_class.py:33-107) and the orchestrator (`main`,
greta.py:94-213). -/

/-- Scalar multiple of a 3-vector. -/
def smul3 (c : ℚ) (v : Vec3) : Vec3 := (c * v.1, c * v.2.1, c * v.2.2)

/-- Squared Euclidean distance of two 3-vectors. -/
def dist2 (a b : Vec3) : ℚ :=
  (a.1 - b.1) ^ 2 + (a.2.1 - b.2.1) ^ 2 + (a.2.2 - b.2.2) ^ 2

/-- `group.center_of_mass()`. -/
def com (g : List Sink) : Vec3 :=
  smul3 (1 / groupMass g) (g.map fun s => smul3 s.mass s.position).sum

/-- `group.center_of_mass_velocity()`. -/
def comVel (g : List Sink) : Vec3 :=
  smul3 (1 / groupMass g) (g.map fun s => smul3 s.mass s.velocity).sum

/-- Minimum of a list of rationals (`group_i.birth_time.min()`); the
groups it is applied to are nonempty, the `[]` value is junk. -/
def listMin : List ℚ → ℚ
  | [] => 0
  | x :: xs => xs.foldl min x

/-- `group_i.birth_time.min()`. -/
def minBirth (g : List Sink) : ℚ := listMin (g.map Sink.birth_time)

/-- Check 3 of `assign_sink_group` (star_formation_class.py:78-82):
reject when the signed difference `sink.birth_time - group.birth_time.min()`
exceeds `group_age`. -/
def ageReject (ga : ℚ) (s : Sink) (g : List Sink) : Bool :=
  decide (ga < s.birth_time - minBirth g)

/-- Checks 1-3 of `assign_sink_group` (star_formation_class.py:60-82),
with the distance and speed gates compared on squares (`r2`, `v2` are
the squared thresholds; equivalent for nonnegative thresholds). -/
def passChecks (r2 v2 ga : ℚ) (s : Sink) (g : List Sink) : Bool :=
  decide (¬ r2 < dist2 s.position (com g)) &&
  decide (¬ v2 < dist2 s.velocity (comVel g)) &&
  ! ageReject ga s g

/-- The sinks with a given group index
(`sink_particles[sink_particles.in_group == i]`). -/
def groupOf (all : List Sink) (i : ℕ) : List Sink :=
  all.filter fun s => s.in_group == i

/-- `sink_particles.in_group.max()`; the reachable group indices are
naturals, so folding `max` with base `0` computes the same maximum. -/
def maxGroup (all : List Sink) : ℕ := (all.map Sink.in_group).foldr max 0

/-- One iteration of the candidate-group loop
(star_formation_class.py:56-98), acting on the running pair
(best energy so far — `none` is the initial `inf` —, current
`sink.in_group`): skip on a failed gate, skip when the energy is
strictly above the best, else record this group. -/
def assignStep (pass : ℕ → Bool) (Eof : ℕ → ℚ) : Option ℚ × ℕ → ℕ → Option ℚ × ℕ
  | (none, j), i => if pass i then (some (Eof i), i) else (none, j)
  | (some b, j), i =>
    if pass i then
      if b < Eof i then (some b, j) else (some (Eof i), i)
    else (some b, j)

/-- The whole candidate-group loop over indices `1..G`, starting from
the infinite best energy and the sink's current group index. -/
def assignLoop (pass : ℕ → Bool) (Eof : ℕ → ℚ) (G : ℕ) (j₀ : ℕ) :
    Option ℚ × ℕ :=
  (List.range' 1 G).foldl (assignStep pass Eof) ((none : Option ℚ), j₀)

/-- `assign_sink_group(sink, sink_particles, ...)`
(star_formation_class.py:33-107).  `E g s` stands for the total
(kinetic plus potential) energy of the hypothetical group `g` with `s`
added (lines 84-89), kept abstract because it involves square roots. -/
def assign_sink_group (E : List Sink → Sink → ℚ) (r2 v2 ga : ℚ)
    (s : Sink) (all : List Sink) : Sink :=
  if s.initialised then s
  else
    let G := maxGroup all
    let res := assignLoop (fun i => passChecks r2 v2 ga s (groupOf all i))
      (fun i => E (groupOf all i) s) G s.in_group
    { s with
      in_group := if res.2 = 0 then G + 1 else res.2
      initialised := true }

/-- The assignment loop of the orchestrator (greta.py:156-166):
process the sinks one by one, each call seeing the mutations made for
the earlier sinks; `done` is the already-processed prefix. -/
def assignAllAux (E : List Sink → Sink → ℚ) (r2 v2 ga : ℚ) :
    List Sink → List Sink → List Sink
  | done, [] => done
  | done, s :: rest =>
    let s' := assign_sink_group E r2 v2 ga s (done ++ s :: rest)
    assignAllAux E r2 v2 ga (done ++ [s']) rest

/-- `assign_sink_group` applied to every sink in order. -/
def assignAll (E : List Sink → Sink → ℚ) (r2 v2 ga : ℚ) (sinks : List Sink) :
    List Sink :=
  assignAllAux E r2 v2 ga [] sinks

/-- Python `a % b`: `ZeroDivisionError` (`none`) when `b = 0`. -/
def pyMod (a b : ℕ) : Option ℕ := if b = 0 then none else some (a % b)

/-- The progress-printing guard `i % int(N/5) == 0` of greta.py:157 and
184; `int(N/5)` is `⌊N/5⌋` for the nonnegative counts involved. -/
def progressCheck (i N : ℕ) : Option Bool :=
  (pyMod i (N / 5)).map fun r => r == 0

/-- One group's round of the star-formation loop (greta.py:183-197):
run `formStars` on the sinks currently carrying index `i`, write the
per-sink mutations back into the full collection, and append any new
stars; `none` is the fatal `exit()` on an empty group. -/
def formStep (rng : RNG) (seed : ℕ) (lo hi mm : ℚ)
    (st : List Sink × List Star) (i : ℕ) : Option (List Sink × List Star) :=
  let grp := groupOf st.1 i
  match formStars rng seed lo hi mm i grp with
  | .fatal => none
  | .noStars _ =>
    some (st.1.map (fun s => if s.in_group == i then cacheT rng seed lo hi grp s else s),
      st.2)
  | .stars ns _ =>
    some (st.1.map (fun s => if s.in_group == i then starBranchT rng seed lo hi mm i grp s else s),
      st.2 ++ ns)

/-- The star-formation loop over group indices `1..G`. -/
def formAll (rng : RNG) (seed : ℕ) (lo hi mm : ℚ) (G : ℕ)
    (sinks : List Sink) : Option (List Sink × List Star) :=
  (List.range' 1 G).foldlM (formStep rng seed lo hi mm) (sinks, ([] : List Star))

/-- Descending insertion by a rational key. -/
def insertDescBy {α : Type} (f : α → ℚ) (x : α) : List α → List α
  | [] => [x]
  | y :: ys => if f y < f x then x :: y :: ys else y :: insertDescBy f x ys

/-- Descending sort by a rational key; models
`sinks.sorted_by_attribute('mass').reversed()` (greta.py:151). -/
def sortDescBy {α : Type} (f : α → ℚ) : List α → List α
  | [] => []
  | x :: xs => insertDescBy f x (sortDescBy f xs)

/-- The whole batch transform of `main` (greta.py:94-213) after input
reading and attribute defaulting: mark every sink uninitialised, sort
by descending mass, assign groups (aborting with the
`ZeroDivisionError` of greta.py:157 when `1 ≤ N < 5`), run the
ungrouped-sink sanity check, then form stars group by group (aborting
with the `ZeroDivisionError` of greta.py:184 when `1 ≤ Ngroup < 5`).
`none` collects every aborting path. -/
def runGreta (rng : RNG) (seed : ℕ) (E : List Sink → Sink → ℚ)
    (r2 v2 ga lo hi mm : ℚ) (sinks : List Sink) :
    Option (List Sink × List Star) :=
  if 0 < sinks.length ∧ sinks.length / 5 = 0 then none
  else
    let assigned := assignAll E r2 v2 ga
      (sortDescBy Sink.mass (sinks.map fun s => { s with initialised := false }))
    if assigned.any (fun s => s.in_group == 0) then none
    else
      let G := maxGroup assigned
      if 0 < G ∧ G / 5 = 0 then none
      else formAll rng seed lo hi mm G assigned

/-- Star list of an outcome (empty when no stars were formed). -/
def outcomeStars : FormOutcome → List Star
  | .stars st _ => st
  | _ => []

/-- Sink state of an outcome. -/
def outcomeSinks : FormOutcome → List Sink
  | .stars _ g => g
  | .noStars g => g
  | .fatal => []

/-! ## Concrete fixtures used by witnesses and counterexamples. -/

/-- A constant energy functional.  Used to exhibit exact-tie
configurations: the concrete sink sets it is paired with below are
mirror-symmetric, so the real kinetic-plus-potential computation also
returns exactly equal values on the two candidate groups. -/
def Econst : List Sink → Sink → ℚ := fun _ _ => 0

/-- Draws of a run in which the fresh primary draw is `1/2 MSun` and
the budget sampler returns `[1, 1/2]` (realisable for a Kroupa stream:
two draws `1` and `1/2` exhaust a budget of `3/2` exactly), with every
origin draw landing on the first sink. -/
def rngC2 : RNG where
  nextDraw := fun _ _ _ => 1/2
  newMasses := fun _ _ _ _ => [1, 1/2]
  choice := fun _ _ n _ => List.replicate n 0
  posJit := fun _ n => List.replicate n (0, 0, 0)
  velJit := fun _ n => List.replicate n (0, 0, 0)

/-- A unit-mass sink with key 0 in group 1. -/
def sinkA : Sink where
  key := 0
  position := (0, 0, 0)
  velocity := (0, 0, 0)
  mass := 1
  radius := 1
  birth_time := 0
  in_group := 1
  initialised := true
  group_next_primary_mass := 0

/-- A second unit-mass sink, key 1, same group. -/
def sinkB : Sink := { sinkA with key := 1 }

/-- A two-sink group of total mass 2. -/
def gC2 : List Sink := [sinkA, sinkB]

/-- Draws of a run whose fresh primary draw is `3/5 MSun` and whose
budget sampler returns `[1, 2]` (realisable: Kroupa draws `1`, `2` and
then an overshooting third draw that `exceed_mass=False` discards). -/
def rngC4 : RNG where
  nextDraw := fun _ _ _ => 3/5
  newMasses := fun _ _ _ _ => [1, 2]
  choice := fun _ _ n _ => List.replicate n 0
  posJit := fun _ n => List.replicate n (0, 0, 0)
  velJit := fun _ n => List.replicate n (0, 0, 0)

/-- A single 10-mass sink. -/
def sinkC4 : Sink := { sinkA with mass := 10 }

/-- The single-sink group of mass 10. -/
def gC4 : List Sink := [sinkC4]

/-! ## Bookkeeping lemmas for the mass-conservation and floor claims. -/

theorem sum_map_add3 {α : Type} (f h : α → ℚ) (l : List α) :
    (l.map fun x => f x + h x).sum = (l.map f).sum + (l.map h).sum := by
  induction l with
  | nil => simp
  | cons x xs ih => simp only [List.map_cons, List.sum_cons, ih]; ring

theorem starMassAt_cons (st : Star) (stars : List Star) (k : ℕ) :
    starMassAt (st :: stars) k
      = (if st.origin_cloud = k then st.mass else 0) + starMassAt stars k := by
  by_cases h : st.origin_cloud = k <;>
    simp [starMassAt, List.filter_cons, h]

theorem sum_if_key_not_mem (ks : List ℕ) (a : ℕ) (ha : a ∉ ks) (c : ℚ) :
    (ks.map fun k => if a = k then c else 0).sum = 0 := by
  induction ks with
  | nil => simp
  | cons k ks ih =>
    have hak : a ≠ k := fun h => ha (h ▸ List.mem_cons_self k ks)
    have ha' : a ∉ ks := fun h => ha (List.mem_cons_of_mem k h)
    simp [hak, ih ha']

theorem sum_if_key_mem (ks : List ℕ) (hnd : ks.Nodup) (a : ℕ) (ha : a ∈ ks) (c : ℚ) :
    (ks.map fun k => if a = k then c else 0).sum = c := by
  induction ks with
  | nil => cases ha
  | cons k ks ih =>
    rcases List.nodup_cons.mp hnd with ⟨hk, hnd'⟩
    rcases List.mem_cons.mp ha with rfl | ha'
    · simp [sum_if_key_not_mem ks a hk c]
    · have hak : a ≠ k := fun h => hk (h ▸ ha')
      simp [hak, ih hnd' ha']

/-- Grouping the star masses by origin key covers each star exactly
once, provided the keys are distinct and every origin is a key. -/
theorem sum_starMassAt (stars : List Star) (ks : List ℕ) (hnd : ks.Nodup)
    (horig : ∀ st ∈ stars, st.origin_cloud ∈ ks) :
    (ks.map fun k => starMassAt stars k).sum = (stars.map Star.mass).sum := by
  induction stars with
  | nil => simp [starMassAt]
  | cons st stars ih =>
    have h1 : (ks.map fun k => starMassAt (st :: stars) k)
        = ks.map fun k => (if st.origin_cloud = k then st.mass else 0) + starMassAt stars k :=
      List.map_congr_left fun k _ => starMassAt_cons st stars k
    rw [h1, sum_map_add3,
      sum_if_key_mem ks hnd st.origin_cloud (horig st (List.mem_cons_self st stars)) st.mass,
      ih fun x hx => horig x (List.mem_cons_of_mem st hx)]
    simp

theorem reduceSink_mass (mm : ℚ) (stars : List Star) (s : Sink) :
    ((reduceSink mm stars s).1).mass
      = s.mass - starMassAt stars s.key + (reduceSink mm stars s).2 := by
  unfold reduceSink
  by_cases h1 : mm < s.mass
  · by_cases h2 : s.mass - starMassAt stars s.key ≤ mm
    · simp only [h1, h2, if_true, if_pos]
      ring
    · simp [h1, h2]
  · simp [h1]

theorem sum_map_mul_const {α : Type} (f : α → ℚ) (c : ℚ) (l : List α) :
    (l.map fun x => f x * c).sum = (l.map f).sum * c := by
  induction l with
  | nil => simp
  | cons x xs ih => simp only [List.map_cons, List.sum_cons, ih]; ring

theorem reduceSink_mass_cache (mm : ℚ) (stars : List Star) (s : Sink) (c : ℚ) :
    ((reduceSink mm stars { s with group_next_primary_mass := c }).1).mass
      = ((reduceSink mm stars s).1).mass := by
  unfold reduceSink
  by_cases h1 : mm < s.mass
  · by_cases h2 : s.mass - starMassAt stars s.key ≤ mm <;> simp [h1, h2]
  · simp [h1]

theorem reduceSink_snd_cache (mm : ℚ) (stars : List Star) (s : Sink) (c : ℚ) :
    (reduceSink mm stars { s with group_next_primary_mass := c }).2
      = (reduceSink mm stars s).2 := by
  unfold reduceSink
  by_cases h1 : mm < s.mass
  · by_cases h2 : s.mass - starMassAt stars s.key ≤ mm <;> simp [h1, h2]
  · simp [h1]

/-- The bookkeeping loop never moves a sink below
`min minimum_sink_mass (its mass before the loop)`. -/
theorem reduceSink_mass_lb (mm : ℚ) (stars : List Star) (s : Sink) :
    min mm s.mass ≤ ((reduceSink mm stars s).1).mass := by
  unfold reduceSink
  by_cases h1 : mm < s.mass
  · by_cases h2 : s.mass - starMassAt stars s.key ≤ mm
    · simp [h1, h2, min_le_left]
    · simp only [h1, h2, if_true, if_false, if_neg, if_pos]
      exact le_trans (min_le_left _ _) (le_of_lt (not_le.mp h2))
  · simp [h1, min_le_right]

theorem reduceSink_mass_pos (mm : ℚ) (stars : List Star) (s : Sink)
    (hmm : 0 < mm) (hs : 0 < s.mass) :
    0 < ((reduceSink mm stars s).1).mass :=
  lt_of_lt_of_le (lt_min hmm hs) (reduceSink_mass_lb mm stars s)

theorem reducedGroup_total (mm : ℚ) (stars : List Star) (g : List Sink) :
    groupMass (reducedGroup mm stars g)
      = groupMass g - (g.map fun s => starMassAt stars s.key).sum
          + excessOf mm stars g := by
  induction g with
  | nil => simp [groupMass, reducedGroup, excessOf]
  | cons s gs ih =>
    simp only [groupMass, reducedGroup, excessOf, List.map_cons, List.sum_cons] at ih ⊢
    rw [reduceSink_mass]
    linarith

theorem reducedGroup_total_pos (mm : ℚ) (stars : List Star) (g : List Sink)
    (hne : g ≠ []) (hmm : 0 < mm) (hpos : ∀ s ∈ g, 0 < s.mass) :
    0 < groupMass (reducedGroup mm stars g) := by
  cases g with
  | nil => exact absurd rfl hne
  | cons s gs =>
    have hhead : 0 < ((reduceSink mm stars s).1).mass :=
      reduceSink_mass_pos mm stars s hmm (hpos s (List.mem_cons_self s gs))
    have htail : 0 ≤ ((reducedGroup mm stars gs).map Sink.mass).sum := by
      apply List.sum_nonneg
      intro x hx
      rcases List.mem_map.mp hx with ⟨s', hs', rfl⟩
      rcases List.mem_map.mp hs' with ⟨s₀, hs₀, rfl⟩
      exact le_of_lt (reduceSink_mass_pos mm stars s₀ hmm
        (hpos s₀ (List.mem_cons_of_mem s hs₀)))
    simp only [groupMass, reducedGroup, List.map_cons, List.sum_cons] at htail ⊢
    linarith

theorem map_getD_range (l : List ℚ) :
    (List.range l.length).map (fun t => l.getD t 0) = l := by
  induction l with
  | nil => simp
  | cons x xs ih =>
    rw [List.length_cons, List.range_succ_eq_map, List.map_cons, List.map_map]
    simp only [Function.comp_def, List.getD_cons_zero, List.getD_cons_succ]
    rw [ih]

/-- The total mass of the stars of one round is the sum of the star
mass list (`next_mass` plus all sampled masses except the deferred
last one). -/
theorem newStarsOf_mass_sum (rng : RNG) (seed : ℕ) (lo hi : ℚ) (i : ℕ)
    (g : List Sink) :
    ((newStarsOf rng seed lo hi i g).map Star.mass).sum
      = nextMassOf rng seed lo hi g + ((newMassesOf rng seed lo hi g).dropLast).sum := by
  have h : (newStarsOf rng seed lo hi i g).map Star.mass
      = (List.range (starMassesOf rng seed lo hi g).length).map
          (fun t => (starMassesOf rng seed lo hi g).getD t 0) := by
    unfold newStarsOf
    rw [List.map_map]
    rfl
  rw [h, map_getD_range, starMassesOf, sortDesc_sum, List.sum_cons]

theorem newStarsOf_origin_mem (rng : RNG) (seed : ℕ) (lo hi : ℚ) (i : ℕ)
    (g : List Sink) (hne : g ≠ []) :
    ∀ st ∈ newStarsOf rng seed lo hi i g, st.origin_cloud ∈ g.map Sink.key := by
  intro st hst
  unfold newStarsOf at hst
  simp only [List.mem_map, List.mem_range] at hst
  obtain ⟨t, _, rfl⟩ := hst
  have hlen : 0 < g.length := List.length_pos.mpr hne
  have hidx : ((sampleOf rng seed lo hi g).getD t 0) % g.length < g.length :=
    Nat.mod_lt _ hlen
  refine List.mem_map.mpr ⟨_, ?_, rfl⟩
  rw [List.getD_eq_getElem g default hidx]
  exact List.getElem_mem hidx

/-- C1: in every formation round that returns stars, the total
returned star mass plus the remaining sink mass of the group equals
the group's total sink mass before the call — an exact identity: the
clamped per-sink subtractions remove the star mass up to the recorded
excess, and the uniform rescale by
`1 - excess_star_mass/group.total_mass()` (the denominator being the
already-reduced total) removes exactly that excess again. -/
theorem C1_mass_conservation (rng : RNG) (seed : ℕ) (lo hi mm : ℚ) (i : ℕ)
    (g : List Sink) (st : List Star) (g' : List Sink)
    (hnd : (g.map Sink.key).Nodup)
    (hpos : ∀ s ∈ g, 0 < s.mass) (hmm : 0 < mm)
    (hout : formStars rng seed lo hi mm i g = FormOutcome.stars st g') :
    (st.map Star.mass).sum + (g'.map Sink.mass).sum = groupMass g := by
  unfold formStars at hout
  split_ifs at hout with h1 h2 h3
  injection hout with hst hg'
  subst hst hg'
  have hne : g ≠ [] := by
    intro h; rw [h] at h1; exact h1 rfl
  set stars := newStarsOf rng seed lo hi i g with hstars
  set Mred := groupMass (reducedGroup mm stars g) with hMred
  have hMredpos : 0 < Mred := reducedGroup_total_pos mm stars g hne hmm hpos
  -- the per-sink totals sum to the total star mass
  have hT : (g.map fun s => starMassAt stars s.key).sum = (stars.map Star.mass).sum := by
    have hmapmap : (g.map fun s => starMassAt stars s.key)
        = (g.map Sink.key).map fun k => starMassAt stars k := by
      rw [List.map_map]; rfl
    rw [hmapmap]
    exact sum_starMassAt stars (g.map Sink.key) hnd
      (newStarsOf_origin_mem rng seed lo hi i g hne)
  -- the final masses are the reduced masses rescaled
  have hfinal : ((g.map (starBranchT rng seed lo hi mm i g)).map Sink.mass).sum
      = Mred * massRatioOf mm stars g := by
    have hpt : (g.map (starBranchT rng seed lo hi mm i g)).map Sink.mass
        = g.map fun s =>
            ((reduceSink mm stars s).1).mass * massRatioOf mm stars g := by
      rw [List.map_map]
      refine List.map_congr_left fun s _ => ?_
      show (starBranchT rng seed lo hi mm i g s).mass = _
      unfold starBranchT
      simp only [← hstars]
      rw [reduceSink_mass_cache]
    rw [hpt, sum_map_mul_const]
    congr 1
    rw [hMred, groupMass, reducedGroup, List.map_map]
    rfl
  rw [hfinal]
  have hne0 : Mred ≠ 0 := ne_of_gt hMredpos
  have hratio : Mred * massRatioOf mm stars g = Mred - excessOf mm stars g := by
    rw [massRatioOf, ← hMred]
    field_simp
  rw [hratio]
  have htot := reducedGroup_total mm stars g
  rw [← hMred, hT] at htot
  linarith

/-- Witness for C1: the two-unit-sink group forming stars of total
mass `3/2` ends with remaining sink mass `1/2`, summing back to 2. -/
theorem C1_witness :
    ((outcomeStars (formStars rngC2 0 (1/2) 100 (1/100) 1 gC2)).map Star.mass).sum
      + ((outcomeSinks (formStars rngC2 0 (1/2) 100 (1/100) 1 gC2)).map Sink.mass).sum
      = groupMass gC2 := by
  have h : formStars rngC2 0 (1/2) 100 (1/100) 1 gC2
      = FormOutcome.stars (newStarsOf rngC2 0 (1/2) 100 1 gC2)
          (gC2.map (starBranchT rngC2 0 (1/2) 100 (1/100) 1 gC2)) := by
    norm_num [formStars, gC2, sinkA, sinkB, rngC2, groupMass, maxCache,
      nextMassOf, newMassesOf]
  rw [h]
  exact C1_mass_conservation rngC2 0 (1/2) 100 (1/100) 1 gC2 _ _
    (by norm_num [gC2, sinkA, sinkB])
    (by norm_num [gC2, sinkA, sinkB])
    (by norm_num) h

/-- C2 counterexample: in the two-unit-sink group, both sinks start at
mass `1 ≥ minimum_sink_mass = 1/100`; all `3/2 MSun` of stars land on
the first sink, which the loop clamps to exactly `1/100` while
recording the excess `51/100`; the subsequent uniform rescale by
`mass_ratio = 50/101` then drives that sink to `1/202 < 1/100`.  So
the call does leave a sink below `minimum_sink_mass`. -/
theorem C2_counterexample :
    (∀ s ∈ gC2, (1:ℚ)/100 ≤ s.mass) ∧
    (outcomeSinks (formStars rngC2 0 (1/2) 100 (1/100) 1 gC2)).map Sink.mass
      = [1/202, 50/101] ∧
    ((1:ℚ)/202 < 1/100) := by
  refine ⟨by norm_num [gC2, sinkA, sinkB], ?_, by norm_num⟩
  norm_num [formStars, gC2, sinkA, sinkB, rngC2, groupMass, maxCache, nextMassOf,
    cachePhase, cacheT, newMassesOf, starMassesOf, sortDesc, insertDesc, probs,
    sampleOf, newStarsOf, starMassAt, reduceSink, excessOf, reducedGroup,
    massRatioOf, starBranchT, outcomeSinks, List.filter_cons, List.filter_nil,
    List.range_succ]

/-- C2 amended: the floor does hold up to the end of the per-origin
subtraction loop — every sink that starts at or above
`minimum_sink_mass` is still at or above it after the loop, before the
uniform excess rescale (which, as `C2_counterexample` shows, can then
push sinks below the floor). -/
theorem C2_floor_before_rescale (mm : ℚ) (stars : List Star) (g : List Sink)
    (s' : Sink) (hs' : s' ∈ reducedGroup mm stars g)
    (hfloor : ∀ s ∈ g, mm ≤ s.mass) :
    mm ≤ s'.mass := by
  rcases List.mem_map.mp hs' with ⟨s, hs, rfl⟩
  exact le_trans (le_min le_rfl (hfloor s hs)) (reduceSink_mass_lb mm stars s)

/-- Witness for the amended C2 at the counterexample input: the
clamped sink sits at exactly `1/100` after the subtraction loop. -/
theorem C2_floor_witness :
    (1:ℚ)/100
      ≤ ((reducedGroup (1/100) (newStarsOf rngC2 0 (1/2) 100 1 gC2) gC2).getD 0
          default).mass := by
  apply C2_floor_before_rescale (1/100) (newStarsOf rngC2 0 (1/2) 100 1 gC2) gC2
  · simp [reducedGroup, gC2]
  · norm_num [gC2, sinkA, sinkB]

/-- The star mass list of a round is exactly the descending-sorted
`next_mass :: masses[:-1]`. -/
theorem newStarsOf_mass_list (rng : RNG) (seed : ℕ) (lo hi : ℚ) (i : ℕ)
    (g : List Sink) :
    (newStarsOf rng seed lo hi i g).map Star.mass = starMassesOf rng seed lo hi g := by
  have h : (newStarsOf rng seed lo hi i g).map Star.mass
      = (List.range (starMassesOf rng seed lo hi g).length).map
          (fun t => (starMassesOf rng seed lo hi g).getD t 0) := by
    unfold newStarsOf
    rw [List.map_map]
    rfl
  rw [h, map_getD_range]

theorem reduceSink_cache (mm : ℚ) (stars : List Star) (s : Sink) :
    ((reduceSink mm stars s).1).group_next_primary_mass
      = s.group_next_primary_mass := by
  unfold reduceSink
  by_cases h1 : mm < s.mass
  · by_cases h2 : s.mass - starMassAt stars s.key ≤ mm <;> simp [h1, h2]
  · simp [h1]

/-- C4 amended: in a star-forming round the returned stars are indeed
sorted by descending mass, and their mass list is the descending sort
of `next_mass` together with all sampled masses but the last; the mass
cached as the group's pending primary mass is `masses[-1]`, the LAST
sampled mass in draw order — not necessarily the smallest — and the
star carrying `next_mass` is only the first star as constructed, not
necessarily the most massive after the sort. -/
theorem C4_star_order (rng : RNG) (seed : ℕ) (lo hi mm : ℚ) (i : ℕ)
    (g : List Sink) (st : List Star) (g' : List Sink)
    (hout : formStars rng seed lo hi mm i g = FormOutcome.stars st g') :
    (st.map Star.mass).Sorted (· ≥ ·) ∧
    st.map Star.mass
      = sortDesc (nextMassOf rng seed lo hi g :: (newMassesOf rng seed lo hi g).dropLast) ∧
    ∀ s' ∈ g', s'.group_next_primary_mass
      = ((newMassesOf rng seed lo hi g).getLast?).getD 0 := by
  unfold formStars at hout
  split_ifs at hout
  injection hout with hst hg'
  subst hst hg'
  refine ⟨?_, ?_, ?_⟩
  · rw [newStarsOf_mass_list, starMassesOf]
    exact sortDesc_sorted _
  · rw [newStarsOf_mass_list, starMassesOf]
  · intro s' hs'
    rcases List.mem_map.mp hs' with ⟨s, _, rfl⟩
    show (starBranchT rng seed lo hi mm i g s).group_next_primary_mass = _
    unfold starBranchT
    rw [reduceSink_cache]

/-- C4 counterexample: a 10-mass single-sink group, fresh primary draw
`3/5`, sampled masses `[1, 2]` (realisable: Kroupa draws `1`, `2`,
then an overshooting draw that `exceed_mass=False` discards).  The
returned stars are `[1, 3/5]`: the most massive returned star has mass
`1`, not the `next_mass` `3/5`; and the cached pending mass is `2`,
the last sampled mass, not the smallest sampled mass `1`. -/
theorem C4_counterexample :
    nextMassOf rngC4 0 (1/2) 100 gC4 = 3/5 ∧
    newMassesOf rngC4 0 (1/2) 100 gC4 = [1, 2] ∧
    (outcomeStars (formStars rngC4 0 (1/2) 100 (1/100) 1 gC4)).map Star.mass
      = [1, 3/5] ∧
    (outcomeSinks (formStars rngC4 0 (1/2) 100 (1/100) 1 gC4)).map
        Sink.group_next_primary_mass = [2] ∧
    ((3:ℚ)/5 < 1) ∧ ((1:ℚ) < 2) := by
  refine ⟨?_, ?_, ?_, ?_, by norm_num, by norm_num⟩ <;>
    norm_num [formStars, gC4, sinkC4, sinkA, rngC4, groupMass, maxCache, nextMassOf,
      cachePhase, cacheT, newMassesOf, starMassesOf, sortDesc, insertDesc, probs,
      sampleOf, newStarsOf, starMassAt, reduceSink, excessOf, reducedGroup,
      massRatioOf, starBranchT, outcomeStars, outcomeSinks, List.filter_cons,
      List.filter_nil, List.range_succ]

/-- Witness for the amended C4 at the counterexample input. -/
theorem C4_star_order_witness :
    ((outcomeStars (formStars rngC4 0 (1/2) 100 (1/100) 1 gC4)).map Star.mass).Sorted
        (· ≥ ·) ∧
    (outcomeStars (formStars rngC4 0 (1/2) 100 (1/100) 1 gC4)).map Star.mass
      = sortDesc (nextMassOf rngC4 0 (1/2) 100 gC4
          :: (newMassesOf rngC4 0 (1/2) 100 gC4).dropLast) ∧
    ∀ s' ∈ gC4.map (starBranchT rngC4 0 (1/2) 100 (1/100) 1 gC4),
      s'.group_next_primary_mass = ((newMassesOf rngC4 0 (1/2) 100 gC4).getLast?).getD 0 := by
  have h : formStars rngC4 0 (1/2) 100 (1/100) 1 gC4
      = FormOutcome.stars (newStarsOf rngC4 0 (1/2) 100 1 gC4)
          (gC4.map (starBranchT rngC4 0 (1/2) 100 (1/100) 1 gC4)) := by
    norm_num [formStars, gC4, sinkC4, sinkA, rngC4, groupMass, maxCache,
      nextMassOf, newMassesOf]
  rw [h]
  exact C4_star_order rngC4 0 (1/2) 100 (1/100) 1 gC4 _ _ h

/-- C5: when the group's total mass is below the pending `next_mass`,
the call returns the no-stars sentinel; the only state change is the
pending-mass cache, set to the fresh draw when it was zero everywhere
and untouched when some member already carried a nonzero value; sink
masses, positions, velocities and group indices are unchanged. -/
theorem C5_insufficient_mass (rng : RNG) (seed : ℕ) (lo hi mm : ℚ) (i : ℕ)
    (g : List Sink) (hne : g.isEmpty = false)
    (hlt : groupMass g < nextMassOf rng seed lo hi g) :
    formStars rng seed lo hi mm i g = FormOutcome.noStars (cachePhase rng seed lo hi g) ∧
    (cachePhase rng seed lo hi g).map Sink.mass = g.map Sink.mass ∧
    (cachePhase rng seed lo hi g).map Sink.position = g.map Sink.position ∧
    (cachePhase rng seed lo hi g).map Sink.velocity = g.map Sink.velocity ∧
    (cachePhase rng seed lo hi g).map Sink.in_group = g.map Sink.in_group ∧
    (maxCache g ≠ 0 → cachePhase rng seed lo hi g = g) ∧
    (maxCache g = 0 →
      (cachePhase rng seed lo hi g).map Sink.group_next_primary_mass
        = List.replicate g.length (rng.nextDraw seed lo hi)) := by
  have hform : formStars rng seed lo hi mm i g
      = FormOutcome.noStars (cachePhase rng seed lo hi g) := by
    unfold formStars
    rw [hne]
    simp only [Bool.false_eq_true, if_false, if_pos hlt]
  have hcnz : maxCache g ≠ 0 → cachePhase rng seed lo hi g = g := by
    intro hc
    have hpt : ∀ s ∈ g, cacheT rng seed lo hi g s = id s := fun s _ => by
      simp [cacheT, hc]
    exact (List.map_congr_left hpt).trans (List.map_id g)
  refine ⟨hform, ?_, ?_, ?_, ?_, hcnz, ?_⟩ <;>
    by_cases hc : maxCache g = 0 <;>
    simp [cachePhase, cacheT, hc, hcnz, List.map_map, Function.comp_def,
      List.map_const']

/-- A single-sink group whose cached pending primary mass `5` exceeds
the group mass `1`. -/
def sinkC5 : Sink := { sinkA with group_next_primary_mass := 5 }

/-- The deferred-formation group. -/
def gC5 : List Sink := [sinkC5]

/-- Witness for C5: the mass-1 group with cached pending mass 5 defers,
and the cache is left untouched. -/
theorem C5_witness :
    formStars rngC2 0 (1/2) 100 (1/100) 3 gC5
      = FormOutcome.noStars (cachePhase rngC2 0 (1/2) 100 gC5) ∧
    (cachePhase rngC2 0 (1/2) 100 gC5).map Sink.mass = gC5.map Sink.mass ∧
    (cachePhase rngC2 0 (1/2) 100 gC5).map Sink.position = gC5.map Sink.position ∧
    (cachePhase rngC2 0 (1/2) 100 gC5).map Sink.velocity = gC5.map Sink.velocity ∧
    (cachePhase rngC2 0 (1/2) 100 gC5).map Sink.in_group = gC5.map Sink.in_group ∧
    (maxCache gC5 ≠ 0 → cachePhase rngC2 0 (1/2) 100 gC5 = gC5) ∧
    (maxCache gC5 = 0 →
      (cachePhase rngC2 0 (1/2) 100 gC5).map Sink.group_next_primary_mass
        = List.replicate gC5.length (rngC2.nextDraw 0 (1/2) 100)) :=
  C5_insufficient_mass rngC2 0 (1/2) 100 (1/100) 3 gC5
    (by norm_num [gC5])
    (by norm_num [groupMass, nextMassOf, maxCache, gC5, sinkC5, sinkA])

/-- C7: the age gate of `assign_sink_group` fires exactly when the
signed difference `sink.birth_time - group.birth_time.min()` exceeds
`group_age`; for a nonnegative threshold, a sink born at or before the
group's earliest member is never rejected by it, no matter how much
earlier it was born. -/
theorem C7_age_check (ga : ℚ) (s : Sink) (g : List Sink) :
    (ageReject ga s g = true ↔ ga < s.birth_time - minBirth g) ∧
    (0 ≤ ga → s.birth_time ≤ minBirth g → ageReject ga s g = false) := by
  constructor
  · simp [ageReject]
  · intro hga hle
    simp only [ageReject, decide_eq_false_iff_not, not_lt]
    linarith

/-- A sink born five time units before everything else. -/
def sinkC7 : Sink := { sinkA with birth_time := -5 }

/-- Witness for C7: the much-older sink passes the age gate against
the group `[sinkA]` of earliest birth time 0 with threshold 1. -/
theorem C7_witness : ageReject 1 sinkC7 [sinkA] = false :=
  (C7_age_check 1 sinkC7 [sinkA]).2 (by norm_num)
    (by norm_num [sinkC7, sinkA, minBirth, listMin])

/-- C8: the whole batch transform — group assignment followed by star
formation over all groups — is a pure function of the input sink
collection and the seed: two runs on equal inputs with equal seeds
return equal outputs (group indices, star masses, positions,
velocities, and final sink masses included).  The model's draw
functions depend on nothing but the seed and their arguments, which is
faithful because `form_stars_from_group` reseeds the global numpy
generator from `randomseed` on entry and no other nondeterminism
exists in either source file. -/
theorem C8_determinism (rng : RNG) (E : List Sink → Sink → ℚ)
    (r2 v2 ga lo hi mm : ℚ) (seed₁ seed₂ : ℕ) (sinks₁ sinks₂ : List Sink)
    (hseed : seed₁ = seed₂) (hsinks : sinks₁ = sinks₂) :
    runGreta rng seed₁ E r2 v2 ga lo hi mm sinks₁
      = runGreta rng seed₂ E r2 v2 ga lo hi mm sinks₂ := by
  rw [hseed, hsinks]

/-- Witness for C8 at a concrete input. -/
theorem C8_witness :
    runGreta rngC2 7 Econst 1 1 1 (1/2) 100 (1/100) gC2
      = runGreta rngC2 7 Econst 1 1 1 (1/2) 100 (1/100) gC2 :=
  C8_determinism rngC2 Econst 1 1 1 (1/2) 100 (1/100) 7 7 gC2 gC2 rfl rfl

/-- C10: with `1 ≤ N < 5` sinks, `int(N/5)` is zero, so the very first
progress-printing step `i % int(N/5)` of greta.py:157 raises
`ZeroDivisionError` and the run aborts before the assignment phase
completes; the group-formation loop of greta.py:184 evaluates the same
guard expression with `N` the number of groups, so a run reaching it
with `1 ≤ Ngroup < 5` aborts the same way. -/
theorem C10_progress_div_by_zero (N : ℕ) (h1 : 1 ≤ N) (h5 : N < 5) :
    N / 5 = 0 ∧ progressCheck 0 N = none ∧
    ∀ (rng : RNG) (seed : ℕ) (E : List Sink → Sink → ℚ) (r2 v2 ga lo hi mm : ℚ)
      (sinks : List Sink), sinks.length = N →
      runGreta rng seed E r2 v2 ga lo hi mm sinks = none := by
  have hdiv : N / 5 = 0 := Nat.div_eq_of_lt h5
  refine ⟨hdiv, ?_, ?_⟩
  · simp [progressCheck, pyMod, hdiv]
  · intro rng seed E r2 v2 ga lo hi mm sinks hlen
    unfold runGreta
    rw [if_pos ⟨by omega, by rw [hlen]; exact hdiv⟩]

/-- Witness for C10 at `N = 3`. -/
theorem C10_witness :
    (3:ℕ) / 5 = 0 ∧ progressCheck 0 3 = none ∧
    runGreta rngC2 0 Econst 1 1 1 (1/2) 100 (1/100) [sinkA, sinkB, sinkC4] = none := by
  obtain ⟨h1, h2, h3⟩ := C10_progress_div_by_zero 3 (by norm_num) (by norm_num)
  exact ⟨h1, h2, h3 rngC2 0 Econst 1 1 1 (1/2) 100 (1/100) _ rfl⟩

theorem maxCache_zero (g : List Sink)
    (hc : ∀ s ∈ g, s.group_next_primary_mass = 0) : maxCache g = 0 := by
  induction g with
  | nil => rfl
  | cons s gs ih =>
    simp only [maxCache, List.map_cons, List.foldr_cons] at ih ⊢
    rw [hc s (List.mem_cons_self s gs),
      ih fun x hx => hc x (List.mem_cons_of_mem s hx)]
    simp

/-- C9: `form_stars_from_group` reseeds the global generator with the
same `randomseed` at every invocation, so within one orchestrator run
every group sees the identical random stream: the fresh primary-mass
draw is the same value for every group, and two fresh groups (caches
all zero, as for sinks first read from file) with equal member mass
lists receive identical sampled star masses, identical origin-choice
draws and identical jitter draws. -/
theorem C9_reseed_same_stream (rng : RNG) (seed : ℕ) (lo hi : ℚ) (i₁ i₂ : ℕ)
    (g₁ g₂ : List Sink)
    (hmass : g₁.map Sink.mass = g₂.map Sink.mass)
    (hc₁ : ∀ s ∈ g₁, s.group_next_primary_mass = 0)
    (hc₂ : ∀ s ∈ g₂, s.group_next_primary_mass = 0) :
    nextMassOf rng seed lo hi g₁ = rng.nextDraw seed lo hi ∧
    nextMassOf rng seed lo hi g₂ = rng.nextDraw seed lo hi ∧
    newMassesOf rng seed lo hi g₁ = newMassesOf rng seed lo hi g₂ ∧
    sampleOf rng seed lo hi g₁ = sampleOf rng seed lo hi g₂ ∧
    rng.posJit seed (starMassesOf rng seed lo hi g₁).length
      = rng.posJit seed (starMassesOf rng seed lo hi g₂).length ∧
    rng.velJit seed (starMassesOf rng seed lo hi g₁).length
      = rng.velJit seed (starMassesOf rng seed lo hi g₂).length ∧
    (newStarsOf rng seed lo hi i₁ g₁).map Star.mass
      = (newStarsOf rng seed lo hi i₂ g₂).map Star.mass := by
  have hnm : nextMassOf rng seed lo hi g₁ = rng.nextDraw seed lo hi := by
    rw [nextMassOf, if_pos (maxCache_zero g₁ hc₁)]
  have hnm₂ : nextMassOf rng seed lo hi g₂ = rng.nextDraw seed lo hi := by
    rw [nextMassOf, if_pos (maxCache_zero g₂ hc₂)]
  have hgm : groupMass g₁ = groupMass g₂ := by rw [groupMass, hmass, groupMass]
  have hms : newMassesOf rng seed lo hi g₁ = newMassesOf rng seed lo hi g₂ := by
    rw [newMassesOf, newMassesOf, hgm, hnm, hnm₂]
  have hsm : starMassesOf rng seed lo hi g₁ = starMassesOf rng seed lo hi g₂ := by
    rw [starMassesOf, starMassesOf, hms, hnm, hnm₂]
  have hlen : g₁.length = g₂.length := by
    have := congrArg List.length hmass
    simpa using this
  have hsam : sampleOf rng seed lo hi g₁ = sampleOf rng seed lo hi g₂ := by
    rw [sampleOf, sampleOf, hms, hlen, hmass]
  refine ⟨hnm, hnm₂, hms, hsam, by rw [hsm], by rw [hsm], ?_⟩
  rw [newStarsOf_mass_list, newStarsOf_mass_list, hsm]

/-- A group with the same member masses as `gC2` but different
positions and keys. -/
def gC9 : List Sink :=
  [{ sinkA with key := 5, position := (2, 0, 0) },
   { sinkB with key := 6, position := (0, 3, 0) }]

/-- Witness for C9: `gC2` and `gC9` share member masses, so one run's
stream gives them identical draws and star masses. -/
theorem C9_witness :
    nextMassOf rngC2 0 (1/2) 100 gC2 = rngC2.nextDraw 0 (1/2) 100 ∧
    nextMassOf rngC2 0 (1/2) 100 gC9 = rngC2.nextDraw 0 (1/2) 100 ∧
    newMassesOf rngC2 0 (1/2) 100 gC2 = newMassesOf rngC2 0 (1/2) 100 gC9 ∧
    sampleOf rngC2 0 (1/2) 100 gC2 = sampleOf rngC2 0 (1/2) 100 gC9 ∧
    rngC2.posJit 0 (starMassesOf rngC2 0 (1/2) 100 gC2).length
      = rngC2.posJit 0 (starMassesOf rngC2 0 (1/2) 100 gC9).length ∧
    rngC2.velJit 0 (starMassesOf rngC2 0 (1/2) 100 gC2).length
      = rngC2.velJit 0 (starMassesOf rngC2 0 (1/2) 100 gC9).length ∧
    (newStarsOf rngC2 0 (1/2) 100 1 gC2).map Star.mass
      = (newStarsOf rngC2 0 (1/2) 100 2 gC9).map Star.mass :=
  C9_reseed_same_stream rngC2 0 (1/2) 100 1 2 gC2 gC9
    (by norm_num [gC2, gC9, sinkA, sinkB])
    (by norm_num [gC2, sinkA, sinkB])
    (by norm_num [gC9, sinkA, sinkB])

/-- One `assign_sink_group` call on an uninitialised sink always
leaves a positive group index: the loop only ever writes indices
`1..G`, and the fallback writes `G+1`. -/
theorem assign_in_group_pos (E : List Sink → Sink → ℚ) (r2 v2 ga : ℚ)
    (s : Sink) (all : List Sink) (hinit : s.initialised = false) :
    1 ≤ (assign_sink_group E r2 v2 ga s all).in_group := by
  unfold assign_sink_group
  rw [if_neg (by simp [hinit])]
  by_cases h : (assignLoop (fun i => passChecks r2 v2 ga s (groupOf all i))
      (fun i => E (groupOf all i) s) (maxGroup all) s.in_group).2 = 0
  · simp [h]
  · simp only [h, if_neg, if_false]
    omega

/-- The orchestrator's assignment pass, invariant part: once the
already-processed prefix has positive group indices and the remaining
sinks are uninitialised, every output sink has a positive index. -/
theorem assignAllAux_in_group_pos (E : List Sink → Sink → ℚ) (r2 v2 ga : ℚ) :
    ∀ (rest done : List Sink), (∀ x ∈ done, 1 ≤ x.in_group) →
      (∀ x ∈ rest, x.initialised = false) →
      ∀ y ∈ assignAllAux E r2 v2 ga done rest, 1 ≤ y.in_group := by
  intro rest
  induction rest with
  | nil =>
    intro done hd _ y hy
    exact hd y hy
  | cons s rs ih =>
    intro done hd hr y hy
    rw [assignAllAux] at hy
    refine ih _ ?_ (fun x hx => hr x (List.mem_cons_of_mem s hx)) y hy
    intro x hx
    rcases List.mem_append.mp hx with hx | hx
    · exact hd x hx
    · rw [List.mem_singleton.mp hx]
      exact assign_in_group_pos E r2 v2 ga s _ (hr s (List.mem_cons_self s rs))

/-- C6: after `assign_sink_group` has been applied to every sink (all
starting uninitialised, as the orchestrator arranges at greta.py:150),
every sink carries a group index of at least 1: a sink passing no
existing group's checks receives the fresh index `G+1 ≥ 1`. -/
theorem C6_group_coverage (E : List Sink → Sink → ℚ) (r2 v2 ga : ℚ)
    (sinks : List Sink) (hinit : ∀ s ∈ sinks, s.initialised = false) :
    ∀ s' ∈ assignAll E r2 v2 ga sinks, 1 ≤ s'.in_group :=
  assignAllAux_in_group_pos E r2 v2 ga sinks [] (by simp) hinit

/-- An unassigned, uninitialised sink. -/
def sinkC6 : Sink := { sinkA with in_group := 0, initialised := false }

/-- Witness for C6: the lone uninitialised sink ends with index 1. -/
theorem C6_witness :
    1 ≤ ((assignAll Econst 1 1 1 [sinkC6]).getD 0 default).in_group := by
  have hmem : (assignAll Econst 1 1 1 [sinkC6]).getD 0 default
      ∈ assignAll Econst 1 1 1 [sinkC6] := by
    simp [assignAll, assignAllAux, assign_sink_group, assignLoop, maxGroup,
      sinkC6, sinkA]
  exact C6_group_coverage Econst 1 1 1 [sinkC6]
    (by norm_num [sinkC6]) _ hmem

/-! ## The candidate-group loop: minimality and tie-break analysis. -/

theorem assignStep_snd (pass : ℕ → Bool) (Eof : ℕ → ℚ) (acc : Option ℚ × ℕ)
    (i : ℕ) :
    (assignStep pass Eof acc i).2 = acc.2 ∨ (assignStep pass Eof acc i).2 = i := by
  rcases acc with ⟨o, j⟩
  cases o with
  | none =>
    by_cases hp : pass i = true <;> simp [assignStep, hp]
  | some b =>
    by_cases hp : pass i = true
    · by_cases hb : b < Eof i <;> simp [assignStep, hp, hb]
    · simp [assignStep, hp]

theorem assignFold_snd_mem (pass : ℕ → Bool) (Eof : ℕ → ℚ) :
    ∀ (l : List ℕ) (acc : Option ℚ × ℕ),
      (l.foldl (assignStep pass Eof) acc).2 = acc.2 ∨
      (l.foldl (assignStep pass Eof) acc).2 ∈ l := by
  intro l
  induction l with
  | nil => intro acc; left; rfl
  | cons i is ih =>
    intro acc
    rw [List.foldl_cons]
    rcases ih (assignStep pass Eof acc i) with h | h
    · rcases assignStep_snd pass Eof acc i with h2 | h2
      · left; rw [h, h2]
      · right; rw [h, h2]; exact List.mem_cons_self i is
    · right; exact List.mem_cons_of_mem i h

theorem assignFold_none (pass : ℕ → Bool) (Eof : ℕ → ℚ) :
    ∀ (l : List ℕ) (o : Option ℚ) (j : ℕ),
      (l.foldl (assignStep pass Eof) (o, j)).1 = none →
      o = none ∧ ∀ i ∈ l, pass i = false := by
  intro l
  induction l with
  | nil =>
    intro o j h
    exact ⟨h, by simp⟩
  | cons i is ih =>
    intro o j h
    rw [List.foldl_cons] at h
    by_cases hp : pass i = true
    · exfalso
      cases o with
      | none =>
        simp only [assignStep, if_pos hp] at h
        exact Option.some_ne_none _ (ih _ _ h).1
      | some b =>
        by_cases hb : b < Eof i
        · simp only [assignStep, if_pos hp, if_pos hb] at h
          exact Option.some_ne_none _ (ih _ _ h).1
        · simp only [assignStep, if_pos hp, if_neg hb] at h
          exact Option.some_ne_none _ (ih _ _ h).1
    · cases o with
      | none =>
        simp only [assignStep, if_neg hp] at h
        obtain ⟨-, h2⟩ := ih _ _ h
        refine ⟨rfl, fun k hk => ?_⟩
        rcases List.mem_cons.mp hk with rfl | hk
        · exact Bool.eq_false_iff.mpr hp
        · exact h2 k hk
      | some b =>
        exfalso
        simp only [assignStep, if_neg hp] at h
        exact Option.some_ne_none _ (ih _ _ h).1

theorem assignFold_mono (pass : ℕ → Bool) (Eof : ℕ → ℚ) :
    ∀ (l : List ℕ) (b : ℚ) (j : ℕ),
      ∃ b', (l.foldl (assignStep pass Eof) (some b, j)).1 = some b' ∧ b' ≤ b := by
  intro l
  induction l with
  | nil =>
    intro b j
    exact ⟨b, rfl, le_rfl⟩
  | cons i is ih =>
    intro b j
    rw [List.foldl_cons]
    by_cases hp : pass i = true
    · by_cases hb : b < Eof i
      · simp only [assignStep, if_pos hp, if_pos hb]
        exact ih b j
      · simp only [assignStep, if_pos hp, if_neg hb]
        obtain ⟨b', h1, h2⟩ := ih (Eof i) i
        exact ⟨b', h1, le_trans h2 (not_lt.mp hb)⟩
    · simp only [assignStep, if_neg hp]
      exact ih b j

/-- Whenever some processed index passes, the running best energy ends
at or below that index's energy. -/
theorem assignFold_min (pass : ℕ → Bool) (Eof : ℕ → ℚ) :
    ∀ (l : List ℕ) (o : Option ℚ) (j : ℕ) (k : ℕ), k ∈ l → pass k = true →
      ∃ b, (l.foldl (assignStep pass Eof) (o, j)).1 = some b ∧ b ≤ Eof k := by
  intro l
  induction l with
  | nil =>
    intro o j k hk
    exact absurd hk (List.not_mem_nil k)
  | cons i is ih =>
    intro o j k hk hpk
    rw [List.foldl_cons]
    rcases List.mem_cons.mp hk with rfl | hk'
    · have hstep : ∃ b₀ j₀,
          assignStep pass Eof (o, j) k = (some b₀, j₀) ∧ b₀ ≤ Eof k := by
        cases o with
        | none => exact ⟨Eof k, k, by simp [assignStep, hpk], le_rfl⟩
        | some b =>
          by_cases hb : b < Eof k
          · exact ⟨b, j, by simp [assignStep, hpk, hb], le_of_lt hb⟩
          · exact ⟨Eof k, k, by simp [assignStep, hpk, hb], le_rfl⟩
      obtain ⟨b₀, j₀, heq, hle⟩ := hstep
      rw [heq]
      obtain ⟨b', h1, h2⟩ := assignFold_mono pass Eof is b₀ j₀
      exact ⟨b', h1, le_trans h2 hle⟩
    · exact ih _ _ k hk' hpk

/-- Provenance: once the accumulator records a passing index and its
energy, the fold keeps recording a passing index with its energy. -/
theorem assignFold_prov (pass : ℕ → Bool) (Eof : ℕ → ℚ) :
    ∀ (l : List ℕ) (b : ℚ) (j : ℕ), b = Eof j → pass j = true →
      ∃ b', (l.foldl (assignStep pass Eof) (some b, j)).1 = some b' ∧
        b' = Eof (l.foldl (assignStep pass Eof) (some b, j)).2 ∧
        pass (l.foldl (assignStep pass Eof) (some b, j)).2 = true ∧
        ((l.foldl (assignStep pass Eof) (some b, j)).2 = j ∨
          (l.foldl (assignStep pass Eof) (some b, j)).2 ∈ l) := by
  intro l
  induction l with
  | nil =>
    intro b j hb hp
    exact ⟨b, rfl, hb, hp, Or.inl rfl⟩
  | cons i is ih =>
    intro b j hb hp
    rw [List.foldl_cons]
    by_cases hpi : pass i = true
    · by_cases hbi : b < Eof i
      · simp only [assignStep, if_pos hpi, if_pos hbi]
        obtain ⟨b', h1, h2, h3, h4⟩ := ih b j hb hp
        exact ⟨b', h1, h2, h3, h4.imp id (List.mem_cons_of_mem i)⟩
      · simp only [assignStep, if_pos hpi, if_neg hbi]
        obtain ⟨b', h1, h2, h3, h4⟩ := ih (Eof i) i rfl hpi
        refine ⟨b', h1, h2, h3, Or.inr ?_⟩
        rcases h4 with h4 | h4
        · rw [h4]; exact List.mem_cons_self i is
        · exact List.mem_cons_of_mem i h4
    · simp only [assignStep, if_neg hpi]
      obtain ⟨b', h1, h2, h3, h4⟩ := ih b j hb hp
      exact ⟨b', h1, h2, h3, h4.imp id (List.mem_cons_of_mem i)⟩

/-- Provenance from the initial infinite best: a non-`none` final best
belongs to a passing index among the processed ones. -/
theorem assignFold_prov_none (pass : ℕ → Bool) (Eof : ℕ → ℚ) :
    ∀ (l : List ℕ) (j : ℕ),
      (l.foldl (assignStep pass Eof) ((none : Option ℚ), j)).1 ≠ none →
      ∃ b', (l.foldl (assignStep pass Eof) ((none : Option ℚ), j)).1 = some b' ∧
        b' = Eof (l.foldl (assignStep pass Eof) ((none : Option ℚ), j)).2 ∧
        pass (l.foldl (assignStep pass Eof) ((none : Option ℚ), j)).2 = true ∧
        (l.foldl (assignStep pass Eof) ((none : Option ℚ), j)).2 ∈ l := by
  intro l
  induction l with
  | nil =>
    intro j h
    exact absurd rfl h
  | cons i is ih =>
    intro j h
    rw [List.foldl_cons] at h ⊢
    by_cases hpi : pass i = true
    · simp only [assignStep, if_pos hpi] at h ⊢
      obtain ⟨b', h1, h2, h3, h4⟩ := assignFold_prov pass Eof is (Eof i) i rfl hpi
      refine ⟨b', h1, h2, h3, ?_⟩
      rcases h4 with h4 | h4
      · rw [h4]; exact List.mem_cons_self i is
      · exact List.mem_cons_of_mem i h4
    · simp only [assignStep, if_neg hpi] at h ⊢
      obtain ⟨b', h1, h2, h3, h4⟩ := ih j h
      exact ⟨b', h1, h2, h3, List.mem_cons_of_mem i h4⟩

/-- Tie-break direction: a passing index of globally minimal energy is
a lower bound for the finally selected index — i.e. on ties the LAST
candidate wins, because only a strictly larger energy is skipped. -/
theorem assignLoop_last_min (pass : ℕ → Bool) (Eof : ℕ → ℚ) (G j₀ k : ℕ)
    (hk : k ∈ List.range' 1 G) (hpk : pass k = true)
    (hmin : ∀ m ∈ List.range' 1 G, pass m = true → Eof k ≤ Eof m) :
    k ≤ (assignLoop pass Eof G j₀).2 := by
  obtain ⟨l1, l2, hsplit⟩ := List.append_of_mem hk
  have hpw : (List.range' 1 G).Pairwise (· < ·) := List.pairwise_lt_range' 1 G
  rw [hsplit] at hpw
  have hl2 : ∀ m ∈ l2, k < m :=
    (List.pairwise_cons.mp (List.pairwise_append.mp hpw).2.1).1
  rw [assignLoop, hsplit, List.foldl_append, List.foldl_cons]
  set acc1 := l1.foldl (assignStep pass Eof) ((none : Option ℚ), j₀) with hacc1
  have hstep : assignStep pass Eof acc1 k = (some (Eof k), k) := by
    rcases hone : acc1.1 with - | b
    · have : acc1 = (none, acc1.2) := Prod.ext hone rfl
      rw [this]
      simp [assignStep, hpk]
    · have hne : acc1.1 ≠ none := by rw [hone]; exact Option.some_ne_none b
      obtain ⟨b', h1, h2, h3, h4⟩ := assignFold_prov_none pass Eof l1 j₀ hne
      have hbb : b = b' := by
        rw [hone] at h1
        exact Option.some.inj h1
      have hmem : acc1.2 ∈ List.range' 1 G := by
        rw [hsplit]
        exact List.mem_append.mpr (Or.inl h4)
      have hled : Eof k ≤ b := by
        rw [hbb, h2]
        exact hmin _ hmem h3
      have : acc1 = (some b, acc1.2) := Prod.ext hone rfl
      rw [this]
      simp only [assignStep, if_pos hpk, if_neg (not_lt.mpr hled)]
  rw [hstep]
  rcases assignFold_snd_mem pass Eof l2 (some (Eof k), k) with h | h
  · rw [h]
  · exact le_of_lt (hl2 _ h)

/-- C3 amended: when an uninitialised, unassigned sink has at least
one passing candidate group, `assign_sink_group` assigns it a passing
group of minimal hypothetical total energy; but ties are broken by the
LAST-encountered (highest-index) passing group, because the loop skips
a candidate only when its energy is strictly greater than the best so
far. -/
theorem C3_energy_selection (E : List Sink → Sink → ℚ) (r2 v2 ga : ℚ)
    (s : Sink) (all : List Sink)
    (hinit : s.initialised = false) (_hin : s.in_group = 0)
    (i₀ : ℕ) (hi₀ : i₀ ∈ List.range' 1 (maxGroup all))
    (hp₀ : passChecks r2 v2 ga s (groupOf all i₀) = true) :
    ((assign_sink_group E r2 v2 ga s all).in_group ∈ List.range' 1 (maxGroup all) ∧
      passChecks r2 v2 ga s
        (groupOf all (assign_sink_group E r2 v2 ga s all).in_group) = true) ∧
    (∀ k ∈ List.range' 1 (maxGroup all),
      passChecks r2 v2 ga s (groupOf all k) = true →
      E (groupOf all (assign_sink_group E r2 v2 ga s all).in_group) s
        ≤ E (groupOf all k) s) ∧
    (∀ k ∈ List.range' 1 (maxGroup all),
      passChecks r2 v2 ga s (groupOf all k) = true →
      E (groupOf all k) s
        = E (groupOf all (assign_sink_group E r2 v2 ga s all).in_group) s →
      k ≤ (assign_sink_group E r2 v2 ga s all).in_group) := by
  have hne : (assignLoop (fun i => passChecks r2 v2 ga s (groupOf all i))
      (fun i => E (groupOf all i) s) (maxGroup all) s.in_group).1 ≠ none := by
    intro h
    rw [assignLoop] at h
    obtain ⟨-, hall⟩ := assignFold_none _ _ _ _ _ h
    rw [hall i₀ hi₀] at hp₀
    cases hp₀
  obtain ⟨b, hb1, hb2, hb3, hb4⟩ := by
    have := assignFold_prov_none
      (fun i => passChecks r2 v2 ga s (groupOf all i))
      (fun i => E (groupOf all i) s) (List.range' 1 (maxGroup all)) s.in_group
      (by rw [← assignLoop]; exact hne)
    rw [← assignLoop] at this
    exact this
  have hres2 : 1 ≤ (assignLoop (fun i => passChecks r2 v2 ga s (groupOf all i))
      (fun i => E (groupOf all i) s) (maxGroup all) s.in_group).2 :=
    (List.mem_range'_1.mp hb4).1
  have hj : (assign_sink_group E r2 v2 ga s all).in_group
      = (assignLoop (fun i => passChecks r2 v2 ga s (groupOf all i))
          (fun i => E (groupOf all i) s) (maxGroup all) s.in_group).2 := by
    unfold assign_sink_group
    rw [if_neg (by simp [hinit])]
    simp only []
    rw [if_neg (by omega)]
  rw [hj]
  refine ⟨⟨hb4, hb3⟩, ?_, ?_⟩
  · intro k hk hpk
    obtain ⟨b', h1, h2⟩ := by
      have := assignFold_min
        (fun i => passChecks r2 v2 ga s (groupOf all i))
        (fun i => E (groupOf all i) s) (List.range' 1 (maxGroup all))
        none s.in_group k hk hpk
      rw [← assignLoop] at this
      exact this
    rw [hb1] at h1
    rw [← Option.some.inj h1] at h2
    calc E (groupOf all (assignLoop (fun i => passChecks r2 v2 ga s (groupOf all i))
          (fun i => E (groupOf all i) s) (maxGroup all) s.in_group).2) s
        = b := hb2.symm
      _ ≤ E (groupOf all k) s := h2
  · intro k hk hpk htie
    apply assignLoop_last_min
      (fun i => passChecks r2 v2 ga s (groupOf all i))
      (fun i => E (groupOf all i) s) (maxGroup all) s.in_group k hk hpk
    intro m hm hpm
    -- Eof k is minimal: Eof k = Eof res ≤ Eof m
    obtain ⟨b', h1, h2⟩ := by
      have := assignFold_min
        (fun i => passChecks r2 v2 ga s (groupOf all i))
        (fun i => E (groupOf all i) s) (List.range' 1 (maxGroup all))
        none s.in_group m hm hpm
      rw [← assignLoop] at this
      exact this
    rw [hb1] at h1
    rw [← Option.some.inj h1] at h2
    calc E (groupOf all k) s
        = E (groupOf all (assignLoop (fun i => passChecks r2 v2 ga s (groupOf all i))
            (fun i => E (groupOf all i) s) (maxGroup all) s.in_group).2) s := htie
      _ = b := hb2.symm
      _ ≤ E (groupOf all m) s := h2

/-- One sink at `(-1,0,0)` forming group 1. -/
def p1C3 : Sink := { sinkA with key := 1, position := (-1, 0, 0), in_group := 1 }

/-- Its mirror image at `(1,0,0)` forming group 2. -/
def p2C3 : Sink := { sinkA with key := 2, position := (1, 0, 0), in_group := 2 }

/-- A new sink exactly midway between the two groups. -/
def sC3 : Sink :=
  { sinkA with key := 3, position := (0, 0, 0), in_group := 0, initialised := false }

/-- The full sink collection of the tie configuration. -/
def allC3 : List Sink := [p1C3, p2C3, sC3]

/-- C3 counterexample: the configuration is mirror-symmetric, so the
two candidate groups pass every gate with exactly equal hypothetical
total energies (here the abstract energy functional is constant, as
the real kinetic-plus-potential computation is equal on the two
mirror-image groups); the claim says the tie goes to the
first-encountered group 1, but the code assigns group 2. -/
theorem C3_counterexample :
    passChecks 9 1 1 sC3 (groupOf allC3 1) = true ∧
    passChecks 9 1 1 sC3 (groupOf allC3 2) = true ∧
    Econst (groupOf allC3 1) sC3 = Econst (groupOf allC3 2) sC3 ∧
    (assign_sink_group Econst 9 1 1 sC3 allC3).in_group = 2 := by
  refine ⟨?_, ?_, rfl, ?_⟩ <;>
    norm_num [passChecks, ageReject, dist2, com, comVel, smul3, groupMass,
      minBirth, listMin, groupOf, allC3, p1C3, p2C3, sC3, sinkA, maxGroup,
      assign_sink_group, assignLoop, assignStep, Econst, List.filter_cons,
      List.filter_nil, List.range']

/-- Witness for the amended C3 at the tie configuration: group 2 is
selected, it passes, its energy is minimal, and every equal-energy
passing group has index at most 2. -/
theorem C3_energy_selection_witness :
    (((assign_sink_group Econst 9 1 1 sC3 allC3).in_group
        ∈ List.range' 1 (maxGroup allC3) ∧
      passChecks 9 1 1 sC3
        (groupOf allC3 (assign_sink_group Econst 9 1 1 sC3 allC3).in_group) = true) ∧
    (∀ k ∈ List.range' 1 (maxGroup allC3),
      passChecks 9 1 1 sC3 (groupOf allC3 k) = true →
      Econst (groupOf allC3 (assign_sink_group Econst 9 1 1 sC3 allC3).in_group) sC3
        ≤ Econst (groupOf allC3 k) sC3) ∧
    (∀ k ∈ List.range' 1 (maxGroup allC3),
      passChecks 9 1 1 sC3 (groupOf allC3 k) = true →
      Econst (groupOf allC3 k) sC3
        = Econst (groupOf allC3 (assign_sink_group Econst 9 1 1 sC3 allC3).in_group) sC3 →
      k ≤ (assign_sink_group Econst 9 1 1 sC3 allC3).in_group)) := by
  apply C3_energy_selection Econst 9 1 1 sC3 allC3
    (by norm_num [sC3, sinkA]) (by norm_num [sC3, sinkA]) 1
  · norm_num [maxGroup, allC3, p1C3, p2C3, sC3, sinkA, List.range']
  · norm_num [passChecks, ageReject, dist2, com, comVel, smul3, groupMass,
      minBirth, listMin, groupOf, allC3, p1C3, p2C3, sC3, sinkA,
      List.filter_cons, List.filter_nil]

end Greta
